import Mathlib

/-!
Verification of the movie recommender script (`app.py`).

The development shallowly embeds the three core functions of the script:

* `load_data`   — the catalog-payload coercion logic (lines 52–84);
* `fetch_poster` — the TMDB poster lookup (lines 91–102);
* `recommend`   — the similarity-ranking and enrichment loop (lines 107–132).

Similarity scores are embedded as rationals; Python's stable descending
`sorted(..., reverse=True, key=lambda x: x[1])` is embedded as
`List.mergeSort` with the comparator "left score is at least right score",
which is exactly a stable descending sort by score.  Network effects are
embedded as explicit oracle arguments (`TmdbResponse` for one poster fetch,
`Nat → Option String` for the enricher used by the ranking loop).  Python
code paths that raise an uncaught exception are embedded as `none` /
`LoadOutcome.raised`; the caught not-found path is embedded as a returned
record with its `notFoundReported` flag set.
-/

/-- One catalog row: external identifier, display title and feature tags,
mirroring the three columns `movie_id`, `title`, `tags` of the script's
movie DataFrame. -/
structure Movie where
  movie_id : Nat
  title : String
  tags : String
deriving Repr, DecidableEq

/-- The comparator passed to the stable sort: candidate `a` may precede
candidate `b` when `b`'s score is at most `a`'s.  This is the embedding of
`sorted(..., reverse=True, key=lambda x: x[1])` (line 114–118): a stable sort
that orders scores descending and keeps the original order on ties. -/
def descBy (a b : Nat × Rat) : Bool := decide (b.2 ≤ a.2)

/-- Embedding of `sorted(list(enumerate(similarity[index])), reverse=True,
key=lambda x: x[1])` (lines 114–118): enumerate the selected row and stable
sort it descending by score. -/
def rankedCandidates (row : List Rat) : List (Nat × Rat) :=
  List.mergeSort row.enum descBy

/-- Embedding of the slice `distances[1:30]` (line 123): drop the first
entry of the sorted sequence positionally and keep the next `scanLimit`
entries (the script fixes `scanLimit` to `29`). -/
def scannedCandidates (row : List Rat) (scanLimit : Nat) : List (Nat × Rat) :=
  ((rankedCandidates row).drop 1).take scanLimit

/-- Value returned by `recommend`: the two parallel result lists and a flag
recording whether the caught not-found path reported its error message
(`st.error` on line 111). -/
structure RecReturn where
  names : List String
  posters : List String
  notFoundReported : Bool
deriving Repr, DecidableEq

/-- Embedding of the candidate loop of `recommend` (lines 123–130).  For
each ranked candidate `(j, score)` the script reads `movies.iloc[j]` (an
uncaught `IndexError` when out of range, embedded as `none`), fetches the
poster, appends poster and title when a poster was returned, and breaks as
soon as the accepted names reach `quota` (the script fixes `quota` to `9`;
the length test runs on every iteration, exactly as in the source). -/
def scanLoop (movies : List Movie) (enricher : Nat → Option String) (quota : Nat) :
    List (Nat × Rat) → List String → List String → Option (List String × List String)
  | [], names, posters => some (names, posters)
  | c :: rest, names, posters =>
    match movies[c.1]? with
    | none => none
    | some m =>
      match enricher m.movie_id with
      | some url =>
        let names' := names ++ [m.title]
        let posters' := posters ++ [url]
        if quota ≤ names'.length then some (names', posters')
        else scanLoop movies enricher quota rest names' posters'
      | none =>
        if quota ≤ names.length then some (names, posters)
        else scanLoop movies enricher quota rest names posters

/-- Embedding of `recommend(movie, movies, similarity)` (lines 107–132),
generalized over the quota and scan limit that the script hardcodes as `9`
and `29` (`distances[1:30]`); see `recommendApp` for the script's instance.
Resolution `movies[movies["title"] == movie].index[0]` is the first
position whose title equals the selection; its `IndexError` is caught and
embedded as the `notFoundReported` record.  Out-of-range row access
(`similarity[index]`, `movies.iloc[j]`) raises uncaught in Python and is
embedded as `none`. -/
def recommend (movie : String) (movies : List Movie) (similarity : List (List Rat))
    (enricher : Nat → Option String) (quota scanLimit : Nat) : Option RecReturn :=
  match movies.findIdx? (fun m => m.title == movie) with
  | none => some ⟨[], [], true⟩
  | some index =>
    match similarity[index]? with
    | none => none
    | some row =>
      match scanLoop movies enricher quota (scannedCandidates row scanLimit) [] [] with
      | none => none
      | some (names, posters) => some ⟨names, posters, false⟩

/-- The script's `recommend` proper: quota `9`, scan limit `29`. -/
def recommendApp (movie : String) (movies : List Movie) (similarity : List (List Rat))
    (enricher : Nat → Option String) : Option RecReturn :=
  recommend movie movies similarity enricher 9 29

/-! ### Metadata enricher (`fetch_poster`, lines 91–102) -/

/-- Outcome of the single TMDB request issued by `fetch_poster`: either some
exception was raised while requesting, checking the status or decoding the
body (all caught by the `except Exception` clause), or a successful decoded
body whose optional `poster_path` field is embedded explicitly. -/
inductive TmdbResponse where
  | failure : TmdbResponse
  | success : Option String → TmdbResponse
deriving Repr, DecidableEq

/-- The fixed timeout passed to `requests.get` (line 94). -/
def TMDB_TIMEOUT : Nat := 5

/-- An outbound request: target URL and timeout bound. -/
structure HttpRequest where
  url : String
  timeout : Nat
deriving Repr, DecidableEq

/-- The request built by `fetch_poster` (lines 92–94). -/
def tmdbRequest (movie_id : Nat) (api_key : String) : HttpRequest :=
  ⟨"https://api.themoviedb.org/3/movie/" ++ toString movie_id ++ "?api_key="
      ++ api_key ++ "&language=en-US",
    TMDB_TIMEOUT⟩

/-- The fixed base URL into which a present poster path is substituted
(line 99). -/
def POSTER_BASE : String := "https://image.tmdb.org/t/p/w500/"

/-- Embedding of `fetch_poster` (lines 91–102) as a function of the request
outcome.  Every exception path returns `none`; a successful body with an
absent or empty `poster_path` (both falsy in `if poster_path:`) returns
`none`; otherwise the poster URL is the base URL with the path appended. -/
def fetch_poster (resp : TmdbResponse) : Option String :=
  match resp with
  | .failure => none
  | .success none => none
  | .success (some p) => if p = "" then none else some (POSTER_BASE ++ p)

/-! ### Catalog loading (`load_data`, lines 52–84) -/

/-- An opaque scalar cell of the pickled payload.  `noneVal` is Python's
`None`, which pandas uses to pad short rows when it builds a DataFrame
from a ragged row list. -/
inductive PyVal where
  | intVal : Int → PyVal
  | strVal : String → PyVal
  | noneVal : PyVal
deriving Repr, DecidableEq

/-- A pandas DataFrame as far as `load_data` observes it: its column labels
and its rows. -/
structure DataFrame where
  cols : List String
  rows : List (List PyVal)
deriving Repr, DecidableEq

/-- An element of a pickled tuple/list payload: a nested DataFrame, a
row-shaped sequence, or a bare scalar. -/
inductive RawElem where
  | df : DataFrame → RawElem
  | row : List PyVal → RawElem
  | scalar : PyVal → RawElem
deriving Repr, DecidableEq

/-- The raw shape of the unpickled `movie_list.pkl` payload as branched on
by `load_data`: a DataFrame, a tuple/list, or anything else. -/
inductive RawMovies where
  | dataFrame : DataFrame → RawMovies
  | container : List RawElem → RawMovies
  | other : RawMovies
deriving Repr, DecidableEq

/-- Outcome of `load_data`'s catalog normalization: a usable DataFrame, the
`st.error` + `st.stop` path (the script's schema-error report), or an
uncaught Python exception escaping `load_data`. -/
inductive LoadOutcome where
  | ok : DataFrame → LoadOutcome
  | schemaError : LoadOutcome
  | raised : LoadOutcome
deriving Repr, DecidableEq

/-- The three required catalog columns (line 69 / 76 / 79). -/
def REQUIRED_COLUMNS : List String := ["movie_id", "title", "tags"]

/-- Whether a payload element is a row-shaped sequence. -/
def isRowElem : RawElem → Bool
  | .row _ => true
  | _ => false

/-- The width pandas measures for a row element (`len(row)`); only ever
used on row elements. -/
def elemWidth : RawElem → Nat
  | .row r => r.length
  | _ => 0

/-- How pandas materializes one row when assembling a three-column frame
from a row list: short rows are padded with `None` up to width three
(`lib.to_object_array` pads to the maximum width). -/
def padRow3 : RawElem → List PyVal
  | .row r => r ++ List.replicate (3 - r.length) PyVal.noneVal
  | _ => []

/-- The success condition of `pd.DataFrame(movies_data, columns=["movie_id",
"title", "tags"])` (line 69) on a tuple/list payload.  An empty list builds
an empty three-column frame.  A list whose first element is row-shaped takes
pandas' nested path: it succeeds when every element is row-shaped and the
maximum row width is exactly three (the resulting object array then has
three columns; shorter rows are padded with `None`), and raises otherwise —
a wider or narrower array fails the column-count check, and a non-sequence
element fails `len()`.  A list headed by a scalar is treated as a single
column (three columns expected, so it raises), and a list headed by a
nested DataFrame also raises.  Every raise happens inside the `try` of
lines 68–72 and is caught. -/
def rowOrientedCoercible (elems : List RawElem) : Bool :=
  match elems with
  | [] => true
  | e :: rest =>
    match e with
    | .row _ =>
      (e :: rest).all isRowElem
        && ((e :: rest).map elemWidth).foldr max 0 == 3
    | _ => false

/-- Embedding of `pd.DataFrame(movies_data, columns=["movie_id", "title",
"tags"])` (line 69): on success the frame carries the three required
columns and the rows padded to width three; every failing shape raises
inside the `try`, which line 70 catches. -/
def coerceRows (elems : List RawElem) : Option DataFrame :=
  if rowOrientedCoercible elems then
    some ⟨REQUIRED_COLUMNS, elems.map padRow3⟩
  else none

/-- Whether a DataFrame possesses all three required columns (line 76). -/
def hasRequiredColumns (d : DataFrame) : Bool :=
  REQUIRED_COLUMNS.all (fun c => d.cols.contains c)

/-- Embedding of the catalog branch of `load_data` (lines 62–84).

* tuple/list of length two whose first element is a DataFrame: that
  DataFrame is taken as-is, with no column validation (lines 65–66);
* any other tuple/list: coerced via `coerceRows`; on failure the script
  reports the error and stops (lines 68–72), embedded as `schemaError`;
* DataFrame already holding the three required columns: kept (line 76);
* DataFrame missing them: `movies_data.columns = [...]` (line 79) relabels
  positionally, which succeeds only when it has exactly three columns and
  otherwise raises an uncaught `ValueError`, embedded as `raised`;
* anything else: reported and stopped (lines 82–83), i.e. `schemaError`. -/
def load_data : RawMovies → LoadOutcome
  | .container elems =>
    match elems with
    | [RawElem.df d, _] => .ok d
    | _ =>
      match coerceRows elems with
      | some d => .ok d
      | none => .schemaError
  | .dataFrame d =>
    if hasRequiredColumns d then .ok d
    else if d.cols.length == 3 then .ok ⟨REQUIRED_COLUMNS, d.rows⟩
    else .raised
  | .other => .schemaError

/-! ### Specification-side definitions -/

/-- The ranking order stated by the spec: strictly greater score first, ties
broken by strictly smaller original row index (stable descending order). -/
def descLex (a b : Nat × Rat) : Prop :=
  b.2 < a.2 ∨ (a.2 = b.2 ∧ a.1 < b.1)

instance (a b : Nat × Rat) : Decidable (descLex a b) := by
  unfold descLex; infer_instance

/-- The title the ranking loop reads for a candidate row index (the
`movies.iloc[j].title` of line 128), as a total lookup. -/
def titleAt (movies : List Movie) (j : Nat) : String :=
  match movies[j]? with
  | some m => m.title
  | none => ""

/-- The poster the ranking loop obtains for a candidate row index (the
`fetch_poster(movies.iloc[j].movie_id)` of lines 124–125), as a total
lookup. -/
def posterAt (movies : List Movie) (enricher : Nat → Option String) (j : Nat) : String :=
  match movies[j]? with
  | some m => (enricher m.movie_id).getD ""
  | none => ""

/-! ### Validity predicates and reference data -/

/-- Whether each row's self-similarity is maximal (not necessarily strictly)
in that row: the validity invariant as the spec's data model states it. -/
def rowSelfMax (i : Nat) (ri : List Rat) : Bool :=
  match ri[i]? with
  | some si => ri.all (fun s => decide (s ≤ si))
  | none => false

/-- `rowSelfMax` for every row of the matrix. -/
def selfSimMaximalB (similarity : List (List Rat)) : Bool :=
  similarity.enum.all (fun p => rowSelfMax p.1 p.2)

/-- Whether a row's self-similarity is strictly greater than every other
entry of the row. -/
def rowSelfStrictMax (i : Nat) (ri : List Rat) : Bool :=
  match ri[i]? with
  | some si => ri.enum.all (fun q => q.1 == i || decide (q.2 < si))
  | none => false

/-- `rowSelfStrictMax` for every row of the matrix. -/
def selfSimStrictMaxB (similarity : List (List Rat)) : Bool :=
  similarity.enum.all (fun p => rowSelfStrictMax p.1 p.2)

/-- The reference four-item catalog of the spec's test properties. -/
def refCatalog : List Movie :=
  [⟨101, "A", "tA"⟩, ⟨102, "B", "tB"⟩, ⟨103, "C", "tC"⟩, ⟨104, "D", "tD"⟩]

/-- A symmetric similarity matrix whose row for "A" is
`[1.0, 0.9, 0.2, 0.5]`, written with exact rationals. -/
def refSimilarity : List (List Rat) :=
  [[1, mkRat 9 10, mkRat 1 5, mkRat 1 2],
   [mkRat 9 10, 1, mkRat 3 10, mkRat 2 5],
   [mkRat 1 5, mkRat 3 10, 1, mkRat 3 5],
   [mkRat 1 2, mkRat 2 5, mkRat 3 5, 1]]

/-- Stub enricher returning an asset for every item. -/
def enrAll : Nat → Option String := fun n => some ("poster-" ++ toString n)

/-- Stub enricher returning no asset for item `102` (title "B") and an
asset for every other item. -/
def enrNoB : Nat → Option String :=
  fun n => if n == 102 then none else some ("poster-" ++ toString n)

/-- The two-item catalog exhibiting a self-similarity tie. -/
def tieCatalog : List Movie := [⟨201, "A", "tA"⟩, ⟨202, "B", "tB"⟩]

/-- A matrix where each self-similarity is maximal but not strictly so. -/
def tieSimilarity : List (List Rat) := [[1, 1], [1, 1]]

lemma descBy_trans (a b c : Nat × Rat) : descBy a b → descBy b c → descBy a c := by
  simp only [descBy, decide_eq_true_eq]
  exact fun h1 h2 => le_trans h2 h1

lemma descBy_total (a b : Nat × Rat) : descBy a b || descBy b a := by
  simp only [descBy, Bool.or_eq_true, decide_eq_true_eq]
  exact le_total b.2 a.2

lemma rankedCandidates_perm (row : List Rat) : (rankedCandidates row).Perm row.enum :=
  List.mergeSort_perm _ _

lemma nodup_enumList (row : List Rat) : row.enum.Nodup :=
  (List.nodup_enum_map_fst row).of_map

lemma nodup_ranked (row : List Rat) : (rankedCandidates row).Nodup :=
  (nodup_enumList row).perm (rankedCandidates_perm row).symm

lemma mem_ranked_getElem {row : List Rat} {c : Nat × Rat} (h : c ∈ rankedCandidates row) :
    row[c.1]? = some c.2 := by
  have h1 : c ∈ row.enum := (rankedCandidates_perm row).mem_iff.mp h
  exact List.mem_enum_iff_getElem?.mp h1

lemma pair_sublist_asymm {α : Type} {l : List α} {a b : α} (hnd : l.Nodup)
    (h1 : List.Sublist [a, b] l) (h2 : List.Sublist [b, a] l) (hne : a ≠ b) : False := by
  induction l with
  | nil => cases h1
  | cons x t ih =>
    have hx : x ∉ t := (List.nodup_cons.mp hnd).1
    have hnd' := (List.nodup_cons.mp hnd).2
    cases h1 with
    | cons _ h1' =>
      cases h2 with
      | cons _ h2' => exact ih hnd' h1' h2'
      | cons₂ _ h2' => exact hx (h1'.subset (by simp))
    | cons₂ _ h1' =>
      cases h2 with
      | cons _ h2' => exact hx (h2'.subset (by simp))
      | cons₂ _ h2' => exact hne rfl

lemma rankedCandidates_pairwise (row : List Rat) : (rankedCandidates row).Pairwise descLex := by
  rw [List.pairwise_iff_getElem]
  intro i j hi hj hij
  have hsorted := List.sorted_mergeSort descBy_trans descBy_total row.enum
  have hle : descBy (rankedCandidates row)[i] (rankedCandidates row)[j] := by
    exact (List.pairwise_iff_getElem.mp hsorted) i j hi hj hij
  have hle' : (rankedCandidates row)[j].2 ≤ (rankedCandidates row)[i].2 := by
    simpa [descBy] using hle
  set a := (rankedCandidates row)[i] with ha
  set b := (rankedCandidates row)[j] with hb
  rcases lt_or_eq_of_le hle' with hlt | heq
  · exact Or.inl hlt
  · have hne : a ≠ b := by
      have := List.pairwise_iff_getElem.mp (nodup_ranked row) i j hi hj hij
      exact this
    have hfstne : a.1 ≠ b.1 := by
      intro hfe
      exact hne (Prod.ext hfe heq.symm)
    rcases Nat.lt_or_ge b.1 a.1 with hba | hge
    · exfalso
      have hma : row[a.1]? = some a.2 := mem_ranked_getElem (by exact List.getElem_mem hi)
      have hmb : row[b.1]? = some b.2 := mem_ranked_getElem (by exact List.getElem_mem hj)
      obtain ⟨hal, ha2⟩ := List.getElem?_eq_some_iff.mp hma
      obtain ⟨hbl, hb2⟩ := List.getElem?_eq_some_iff.mp hmb
      have hbe : b.1 < row.enum.length := by simpa [List.enum_length] using hbl
      have hae : a.1 < row.enum.length := by simpa [List.enum_length] using hal
      have hpw : ([⟨b.1, hbe⟩, ⟨a.1, hae⟩] : List (Fin row.enum.length)).Pairwise (· < ·) := by
        simp [hba]
      have hsub0 := List.map_getElem_sublist hpw
      have hsub : List.Sublist [b, a] row.enum := by
        simpa [List.getElem_enum, ha2, hb2, Prod.mk.eta] using hsub0
      have hdba : descBy b a := by
        simp [descBy, heq]
      have hpair := List.pair_sublist_mergeSort descBy_trans descBy_total hdba hsub
      have hpairab : List.Sublist [a, b] (rankedCandidates row) := by
        have hpw2 :
            ([⟨i, hi⟩, ⟨j, hj⟩] : List (Fin (rankedCandidates row).length)).Pairwise (· < ·) := by
          simp [hij]
        have := List.map_getElem_sublist hpw2
        simpa using this
      exact pair_sublist_asymm (nodup_ranked row) hpairab hpair hne
    · rcases Nat.lt_or_ge a.1 b.1 with h | h
      · exact Or.inr ⟨heq.symm, h⟩
      · exact absurd (Nat.le_antisymm hge h) hfstne

lemma descLex_antisymm {a b : Nat × Rat} (h1 : descLex a b) (h2 : descLex b a) : a = b := by
  rcases h1 with h | ⟨he, hi⟩
  · rcases h2 with h' | ⟨he', hi'⟩
    · exact absurd h' (lt_asymm h)
    · rw [he'] at h; exact absurd h (lt_irrefl _)
  · rcases h2 with h' | ⟨he', hi'⟩
    · rw [he] at h'; exact absurd h' (lt_irrefl _)
    · exact absurd hi' (Nat.lt_asymm hi)

lemma ranked_unique {row : List Rat} {l1 l2 : List (Nat × Rat)}
    (p1 : l1.Perm row.enum) (s1 : l1.Pairwise descLex)
    (p2 : l2.Perm row.enum) (s2 : l2.Pairwise descLex) : l1 = l2 :=
  List.Perm.eq_of_sorted (fun _ _ _ _ h1 h2 => descLex_antisymm h1 h2) s1 s2 (p1.trans p2.symm)

/-- Any list which is a permutation of the enumerated row and sorted in the
stable descending order is exactly `rankedCandidates`. -/
lemma rankedCandidates_eq_of {row : List Rat} {l : List (Nat × Rat)}
    (p : l.Perm row.enum) (s : l.Pairwise descLex) : rankedCandidates row = l :=
  ranked_unique (rankedCandidates_perm row) (rankedCandidates_pairwise row) p s

/-! ### Helper lemmas about the scanning loop -/

lemma scanLoop_congr (movies : List Movie) (enr1 enr2 : Nat → Option String) (quota : Nat)
    (h : ∀ m ∈ movies, enr1 m.movie_id = enr2 m.movie_id) :
    ∀ (cands : List (Nat × Rat)) (names posters : List String),
      scanLoop movies enr1 quota cands names posters
        = scanLoop movies enr2 quota cands names posters := by
  intro cands
  induction cands with
  | nil => intro names posters; rfl
  | cons c rest ih =>
    intro names posters
    cases hm : movies[c.1]? with
    | none => simp only [scanLoop, hm]
    | some m =>
      have hmem : m ∈ movies := List.getElem?_mem hm
      cases he : enr2 m.movie_id with
      | some url =>
        simp only [scanLoop, hm, h m hmem, he]
        split
        · rfl
        · exact ih _ _
      | none =>
        simp only [scanLoop, hm, h m hmem, he]
        split
        · rfl
        · exact ih _ _

lemma scanLoop_spec (movies : List Movie) (enricher : Nat → Option String) (quota : Nat) :
    ∀ (cands : List (Nat × Rat)) (names posters : List String)
      (out : List String × List String),
      scanLoop movies enricher quota cands names posters = some out →
      ∃ acc : List (Nat × Rat),
        List.Sublist acc cands ∧
        out.1 = names ++ acc.map (fun c => titleAt movies c.1) ∧
        out.2 = posters ++ acc.map (fun c => posterAt movies enricher c.1) ∧
        ∀ c ∈ acc, ∃ m, movies[c.1]? = some m ∧
          enricher m.movie_id = some (posterAt movies enricher c.1) := by
  intro cands
  induction cands with
  | nil =>
    intro names posters out h
    simp only [scanLoop, Option.some.injEq] at h
    refine ⟨[], List.nil_sublist _, ?_, ?_, by simp⟩
    · rw [← h]; simp
    · rw [← h]; simp
  | cons c rest ih =>
    intro names posters out h
    cases hm : movies[c.1]? with
    | none =>
      simp only [scanLoop, hm] at h
      exact Option.noConfusion h
    | some m =>
      cases he : enricher m.movie_id with
      | some url =>
        simp only [scanLoop, hm, he] at h
        by_cases hq : quota ≤ (names ++ [m.title]).length
        · rw [if_pos hq] at h
          simp only [Option.some.injEq] at h
          refine ⟨[c], (List.nil_sublist rest).cons₂ c, ?_, ?_, ?_⟩
          · rw [← h]; simp [titleAt, hm]
          · rw [← h]; simp [posterAt, hm, he]
          · intro d hd
            simp only [List.mem_singleton] at hd
            subst hd
            exact ⟨m, hm, by simp [posterAt, hm, he]⟩
        · rw [if_neg hq] at h
          obtain ⟨acc, hsub, h1, h2, h3⟩ := ih _ _ _ h
          refine ⟨c :: acc, hsub.cons₂ c, ?_, ?_, ?_⟩
          · rw [h1]; simp [titleAt, hm]
          · rw [h2]; simp [posterAt, hm, he]
          · intro d hd
            rcases List.mem_cons.mp hd with hd | hd
            · subst hd
              exact ⟨m, hm, by simp [posterAt, hm, he]⟩
            · exact h3 d hd
      | none =>
        simp only [scanLoop, hm, he] at h
        by_cases hq : quota ≤ names.length
        · rw [if_pos hq] at h
          simp only [Option.some.injEq] at h
          refine ⟨[], List.nil_sublist _, ?_, ?_, by simp⟩
          · rw [← h]; simp
          · rw [← h]; simp
        · rw [if_neg hq] at h
          obtain ⟨acc, hsub, h1, h2, h3⟩ := ih _ _ _ h
          exact ⟨acc, hsub.cons c, h1, h2, h3⟩

lemma scanLoop_quota (movies : List Movie) (enricher : Nat → Option String) (quota : Nat) :
    ∀ (cands : List (Nat × Rat)) (names posters : List String)
      (out : List String × List String),
      names.length < quota →
      scanLoop movies enricher quota cands names posters = some out →
      out.1.length ≤ quota := by
  intro cands
  induction cands with
  | nil =>
    intro names posters out hlt h
    simp only [scanLoop, Option.some.injEq] at h
    rw [← h]
    exact le_of_lt hlt
  | cons c rest ih =>
    intro names posters out hlt h
    cases hm : movies[c.1]? with
    | none =>
      simp only [scanLoop, hm] at h
      exact Option.noConfusion h
    | some m =>
      cases he : enricher m.movie_id with
      | some url =>
        simp only [scanLoop, hm, he] at h
        by_cases hq : quota ≤ (names ++ [m.title]).length
        · rw [if_pos hq] at h
          simp only [Option.some.injEq] at h
          rw [← h]
          simp only [List.length_append, List.length_singleton]
          omega
        · rw [if_neg hq] at h
          refine ih _ _ _ ?_ h
          simp only [List.length_append, List.length_singleton] at hq ⊢
          omega
      | none =>
        simp only [scanLoop, hm, he] at h
        by_cases hq : quota ≤ names.length
        · rw [if_pos hq] at h
          simp only [Option.some.injEq] at h
          rw [← h]
          exact le_of_lt hlt
        · rw [if_neg hq] at h
          exact ih _ _ _ hlt h

lemma scanLoop_all_none (movies : List Movie) (enricher : Nat → Option String) (quota : Nat) :
    ∀ (cands : List (Nat × Rat)) (names posters : List String),
      (∀ c ∈ cands, ∃ m, movies[c.1]? = some m ∧ enricher m.movie_id = none) →
      scanLoop movies enricher quota cands names posters = some (names, posters) := by
  intro cands
  induction cands with
  | nil => intro names posters _; rfl
  | cons c rest ih =>
    intro names posters hall
    obtain ⟨m, hm, he⟩ := hall c (List.mem_cons_self c rest)
    simp only [scanLoop, hm, he]
    split
    · rfl
    · exact ih _ _ (fun d hd => hall d (List.mem_cons_of_mem c hd))

/-! ### Helper lemmas about self-exclusion and title resolution -/

/-- When the selected row's self-similarity is strictly maximal, the head of
the stable descending ranking is exactly the self entry, and no later entry
carries the selected index. -/
lemma ranked_head_self (row : List Rat) (index : Nat) (si : Rat)
    (hidx : row[index]? = some si)
    (hmax : ∀ j sj, row[j]? = some sj → j ≠ index → sj < si) :
    ∃ rest, rankedCandidates row = (index, si) :: rest ∧ ∀ c ∈ rest, c.1 ≠ index := by
  have hself : (index, si) ∈ rankedCandidates row :=
    (rankedCandidates_perm row).mem_iff.mpr (List.mem_enum_iff_getElem?.mpr hidx)
  cases hr : rankedCandidates row with
  | nil => rw [hr] at hself; cases hself
  | cons hd rest =>
    have hpw : (hd :: rest).Pairwise descLex := hr ▸ rankedCandidates_pairwise row
    rw [hr] at hself
    rcases List.mem_cons.mp hself with heq | hmem
    · refine ⟨rest, by rw [heq], ?_⟩
      intro c hc hcidx
      have hcmem : c ∈ rankedCandidates row := by
        rw [hr]; exact List.mem_cons_of_mem _ hc
      have hce : row[c.1]? = some c.2 := mem_ranked_getElem hcmem
      rw [hcidx, hidx] at hce
      have hc2 : c.2 = si := by
        exact Option.some.injEq _ _ ▸ hce.symm
      have hcself : c = (index, si) := Prod.ext hcidx hc2
      have hdl : descLex hd c := (List.pairwise_cons.mp hpw).1 c hc
      rw [← heq, hcself] at hdl
      rcases hdl with hlt | ⟨_, hlt⟩
      · exact absurd hlt (lt_irrefl _)
      · exact absurd hlt (lt_irrefl _)
    · exfalso
      have hdmem : hd ∈ rankedCandidates row := by
        rw [hr]; exact List.mem_cons_self _ _
      have hde : row[hd.1]? = some hd.2 := mem_ranked_getElem hdmem
      have hdl : descLex hd (index, si) := (List.pairwise_cons.mp hpw).1 _ hmem
      by_cases hdi : hd.1 = index
      · have hd2 : hd.2 = si := by
          rw [hdi, hidx] at hde
          exact Option.some.injEq _ _ ▸ hde.symm
        have : hd = (index, si) := Prod.ext hdi hd2
        rw [this] at hdl
        rcases hdl with hlt | ⟨_, hlt⟩
        · exact absurd hlt (lt_irrefl _)
        · exact absurd hlt (lt_irrefl _)
      · have hlt : hd.2 < si := hmax hd.1 hd.2 hde hdi
        rcases hdl with hgt | ⟨hge, _⟩
        · exact absurd (lt_trans hgt hlt) (lt_irrefl _)
        · rw [hge] at hlt; exact absurd hlt (lt_irrefl _)

/-- In a list whose matching count is one, two positions holding matching
elements coincide. -/
lemma countP_one_unique {α : Type} {p : α → Bool} :
    ∀ {l : List α}, l.countP p = 1 →
      ∀ (i j : Nat) (mi mj : α), l[i]? = some mi → l[j]? = some mj → p mi → p mj → i = j := by
  intro l
  induction l with
  | nil => intro _ i j mi mj hi hj hpi hpj; simp at hi
  | cons x t ih =>
    intro hcount i j mi mj hi hj hpi hpj
    rw [List.countP_cons] at hcount
    by_cases hpx : p x
    · have ht0 : t.countP p = 0 := by
        rw [if_pos hpx] at hcount
        omega
      have hnone : ∀ a ∈ t, ¬ p a := by
        intro a ha
        exact (List.countP_eq_zero.mp ht0) a ha
      cases i with
      | zero =>
        cases j with
        | zero => rfl
        | succ j' =>
          rw [List.getElem?_cons_succ] at hj
          exact absurd hpj (hnone mj (List.getElem?_mem hj))
      | succ i' =>
        rw [List.getElem?_cons_succ] at hi
        exact absurd hpi (hnone mi (List.getElem?_mem hi))
    · have ht1 : t.countP p = 1 := by
        rw [if_neg hpx] at hcount
        omega
      cases i with
      | zero =>
        rw [List.getElem?_cons_zero] at hi
        have : mi = x := by exact Option.some.injEq _ _ ▸ hi.symm
        rw [this] at hpi
        exact absurd hpi hpx
      | succ i' =>
        cases j with
        | zero =>
          rw [List.getElem?_cons_zero] at hj
          have : mj = x := by exact Option.some.injEq _ _ ▸ hj.symm
          rw [this] at hpj
          exact absurd hpj hpx
        | succ j' =>
          rw [List.getElem?_cons_succ] at hi hj
          have := ih ht1 i' j' mi mj hi hj hpi hpj
          omega

lemma selfSimStrictMaxB_spec {similarity : List (List Rat)}
    (h : selfSimStrictMaxB similarity = true)
    {index : Nat} {row : List Rat} (hrow : similarity[index]? = some row)
    {si : Rat} (hsi : row[index]? = some si) :
    ∀ j sj, row[j]? = some sj → j ≠ index → sj < si := by
  intro j sj hsj hne
  have hmem : (index, row) ∈ similarity.enum := List.mem_enum_iff_getElem?.mpr hrow
  have hall := List.all_eq_true.mp h _ hmem
  simp only [rowSelfStrictMax, hsi] at hall
  have hq : (j, sj) ∈ row.enum := List.mem_enum_iff_getElem?.mpr hsj
  have hthis := List.all_eq_true.mp hall _ hq
  simpa [hne] using hthis

/-- The scanned slice inherits the non-increasing score order of the
stable descending sort. -/
lemma scanned_sorted (row : List Rat) (k : Nat) :
    (scannedCandidates row k).Pairwise (fun a b : Nat × Rat => b.2 ≤ a.2) := by
  have h := List.sorted_mergeSort descBy_trans descBy_total row.enum
  have h2 : (rankedCandidates row).Pairwise (fun a b : Nat × Rat => b.2 ≤ a.2) := by
    refine h.imp ?_
    intro a b hab
    simpa [descBy] using hab
  have hsub : List.Sublist (scannedCandidates row k) (rankedCandidates row) :=
    (List.take_sublist k _).trans (List.drop_sublist 1 _)
  exact h2.sublist hsub

lemma mem_scanned_getElem {row : List Rat} {k : Nat} {c : Nat × Rat}
    (h : c ∈ scannedCandidates row k) : row[c.1]? = some c.2 := by
  have hsub : List.Sublist (scannedCandidates row k) (rankedCandidates row) :=
    (List.take_sublist k _).trans (List.drop_sublist 1 _)
  exact mem_ranked_getElem (hsub.subset h)

/-- Faithfulness exhibit for line 69 on ragged input: a row list whose
maximum width is three is accepted by pandas, the short row padded with
`None`, and `load_data` proceeds with the coerced frame. -/
lemma load_data_ragged_pads :
    load_data (RawMovies.container
        [RawElem.row [PyVal.intVal 1, PyVal.strVal "t", PyVal.strVal "g"],
         RawElem.row [PyVal.intVal 2, PyVal.strVal "u"]])
      = LoadOutcome.ok
          ⟨REQUIRED_COLUMNS,
            [[PyVal.intVal 1, PyVal.strVal "t", PyVal.strVal "g"],
             [PyVal.intVal 2, PyVal.strVal "u", PyVal.noneVal]]⟩ := by
  decide

/-! ### Claims -/

unseal List.merge List.mergeSort in
/-- C1: on the reference catalog A, B, C, D with similarity row for "A"
equal to `[1.0, 0.9, 0.2, 0.5]`, `recommend("A")` with quota 2 returns
exactly B then D when the enricher yields an asset for every candidate
(scores 0.9 then 0.5, self excluded), and exactly D then C when the
enricher yields no asset for B. -/
theorem C1_reference_catalog :
    recommend "A" refCatalog refSimilarity enrAll 2 29
        = some ⟨["B", "D"], ["poster-102", "poster-104"], false⟩ ∧
    recommend "A" refCatalog refSimilarity enrNoB 2 29
        = some ⟨["D", "C"], ["poster-104", "poster-103"], false⟩ := by
  exact ⟨by decide, by decide⟩

/-- C5: when the selected title matches no catalog row, `recommend` returns
the empty result with the not-found error reported (the caught
`IndexError` path of lines 108–112), and no exception escapes (the result
is `some`, never the `none` that embeds an uncaught exception). -/
theorem C5_not_found_empty_and_reported
    (movie : String) (movies : List Movie) (similarity : List (List Rat))
    (enricher : Nat → Option String)
    (h : ∀ m ∈ movies, m.title ≠ movie) :
    recommendApp movie movies similarity enricher = some ⟨[], [], true⟩ := by
  have hnone : movies.findIdx? (fun m => m.title == movie) = none := by
    rw [List.findIdx?_eq_none_iff]
    intro m hm
    simpa using h m hm
  simp [recommendApp, recommend, hnone]

theorem C5_witness :
    (∀ m ∈ [Movie.mk 1 "A" "t"], m.title ≠ "Z") ∧
    recommendApp "Z" [Movie.mk 1 "A" "t"] [[1]] (fun _ => some "p")
      = some ⟨[], [], true⟩ :=
  ⟨by decide, C5_not_found_empty_and_reported "Z" _ _ _ (by decide)⟩

/-- C6: `fetch_poster` never raises (it is a total function into
`Option`): every transport failure, non-2xx status, malformed body or
timeout is the `failure` outcome and yields no asset; a success whose
poster path is absent or empty yields no asset; a success with a nonempty
poster path yields the fixed base URL with the path substituted; and the
single request is bounded by the fixed timeout of 5. -/
theorem C6_fetch_poster_resilient (p : String) (hp : p ≠ "") :
    (∀ (movie_id : Nat) (api_key : String),
        (tmdbRequest movie_id api_key).timeout = 5) ∧
    fetch_poster TmdbResponse.failure = none ∧
    fetch_poster (TmdbResponse.success none) = none ∧
    fetch_poster (TmdbResponse.success (some "")) = none ∧
    fetch_poster (TmdbResponse.success (some p)) = some (POSTER_BASE ++ p) := by
  refine ⟨fun _ _ => rfl, rfl, rfl, rfl, ?_⟩
  simp [fetch_poster, hp]

theorem C6_witness :
    ("x" : String) ≠ "" ∧
    ((∀ (movie_id : Nat) (api_key : String),
        (tmdbRequest movie_id api_key).timeout = 5) ∧
    fetch_poster TmdbResponse.failure = none ∧
    fetch_poster (TmdbResponse.success none) = none ∧
    fetch_poster (TmdbResponse.success (some "")) = none ∧
    fetch_poster (TmdbResponse.success (some "x")) = some (POSTER_BASE ++ "x")) :=
  ⟨by decide, C6_fetch_poster_resilient "x" (by decide)⟩

/-- C9: `recommend` is deterministic: it is a pure function of the
selection, catalog, matrix and the enricher's outcome per item identifier;
two enrichers that agree on every catalog item produce identical results,
for any quota and scan limit (hence in particular for the script's 9 and
29). -/
theorem C9_recommend_deterministic
    (movie : String) (movies : List Movie) (similarity : List (List Rat))
    (quota scanLimit : Nat) (enr1 enr2 : Nat → Option String)
    (h : ∀ m ∈ movies, enr1 m.movie_id = enr2 m.movie_id) :
    recommend movie movies similarity enr1 quota scanLimit
      = recommend movie movies similarity enr2 quota scanLimit := by
  cases hf : movies.findIdx? (fun m => m.title == movie) with
  | none => simp [recommend, hf]
  | some index =>
    cases hs : similarity[index]? with
    | none => simp [recommend, hf, hs]
    | some row =>
      simp only [recommend, hf, hs]
      rw [scanLoop_congr movies enr1 enr2 quota h]

theorem C9_witness :
    (∀ m ∈ [Movie.mk 1 "A" "t"],
        (fun _ : Nat => some "p") m.movie_id
          = (fun n : Nat => if n == 1 then some "p" else none) m.movie_id) ∧
    recommend "A" [Movie.mk 1 "A" "t"] [[1]] (fun _ => some "p") 9 29
      = recommend "A" [Movie.mk 1 "A" "t"] [[1]]
          (fun n => if n == 1 then some "p" else none) 9 29 :=
  ⟨by decide, C9_recommend_deterministic "A" _ _ 9 29 _ _ (by decide)⟩

/-- C7: if the enricher yields no asset for every one of the scanned
candidates, the loop accepts nothing and `recommend` returns the empty
result with no error condition reported and no exception. -/
theorem C7_all_enrichment_failures_empty
    (movie : String) (movies : List Movie) (similarity : List (List Rat))
    (enricher : Nat → Option String) (index : Nat) (row : List Rat)
    (hf : movies.findIdx? (fun m => m.title == movie) = some index)
    (hrow : similarity[index]? = some row)
    (hall : ∀ c ∈ scannedCandidates row 29,
      ∃ m, movies[c.1]? = some m ∧ enricher m.movie_id = none) :
    recommendApp movie movies similarity enricher = some ⟨[], [], false⟩ := by
  simp only [recommendApp, recommend, hf, hrow]
  rw [scanLoop_all_none movies enricher 9 _ [] [] hall]

unseal List.merge List.mergeSort in
theorem C7_witness :
    ([⟨1, "A", "tA"⟩, ⟨2, "B", "tB"⟩] : List Movie).findIdx?
        (fun m => m.title == "A") = some 0 ∧
    ([[1, mkRat 1 2], [mkRat 1 2, 1]] : List (List Rat))[0]?
        = some [1, mkRat 1 2] ∧
    (∀ c ∈ scannedCandidates [1, mkRat 1 2] 29,
      ∃ m, ([⟨1, "A", "tA"⟩, ⟨2, "B", "tB"⟩] : List Movie)[c.1]? = some m ∧
        (fun _ : Nat => (none : Option String)) m.movie_id = none) ∧
    recommendApp "A" [⟨1, "A", "tA"⟩, ⟨2, "B", "tB"⟩]
        [[1, mkRat 1 2], [mkRat 1 2, 1]] (fun _ => none)
      = some ⟨[], [], false⟩ := by
  have hall : ∀ c ∈ scannedCandidates [1, mkRat 1 2] 29,
      ∃ m, ([⟨1, "A", "tA"⟩, ⟨2, "B", "tB"⟩] : List Movie)[c.1]? = some m ∧
        (fun _ : Nat => (none : Option String)) m.movie_id = none := by
    intro c hc
    have hsc : scannedCandidates [1, mkRat 1 2] 29 = [(1, mkRat 1 2)] := by decide
    rw [hsc] at hc
    simp only [List.mem_singleton] at hc
    subst hc
    exact ⟨⟨2, "B", "tB"⟩, rfl, rfl⟩
  exact ⟨rfl, rfl, hall,
    C7_all_enrichment_failures_empty "A" _ _ _ 0 _ rfl rfl hall⟩

/-- C4: for every input and every enricher outcome, a returned result has
at most 9 and at most 29 entries in both lists, and (when the selection
resolved) the accepted entries are images of a sub-selection of the scanned
candidates whose underlying similarity scores are non-increasing. -/
theorem C4_result_bounds_and_order
    (movie : String) (movies : List Movie) (similarity : List (List Rat))
    (enricher : Nat → Option String) (r : RecReturn)
    (h : recommendApp movie movies similarity enricher = some r) :
    r.names.length ≤ 9 ∧ r.posters.length ≤ 9 ∧
    r.names.length ≤ 29 ∧ r.posters.length ≤ 29 ∧
    (r.notFoundReported = false →
      ∃ index row acc,
        movies.findIdx? (fun m => m.title == movie) = some index ∧
        similarity[index]? = some row ∧
        List.Sublist acc (scannedCandidates row 29) ∧
        (∀ c ∈ acc, row[c.1]? = some c.2) ∧
        acc.Pairwise (fun a b : Nat × Rat => b.2 ≤ a.2) ∧
        r.names = acc.map (fun c => titleAt movies c.1) ∧
        r.posters = acc.map (fun c => posterAt movies enricher c.1)) := by
  rw [recommendApp] at h
  cases hf : movies.findIdx? (fun m => m.title == movie) with
  | none =>
    simp only [recommend, hf, Option.some.injEq] at h
    subst h
    refine ⟨by simp, by simp, by simp, by simp, ?_⟩
    intro hfr
    simp at hfr
  | some index =>
    cases hs : similarity[index]? with
    | none =>
      simp only [recommend, hf, hs] at h
      exact Option.noConfusion h
    | some row =>
      simp only [recommend, hf, hs] at h
      cases hl : scanLoop movies enricher 9 (scannedCandidates row 29) [] [] with
      | none =>
        simp only [hl] at h
        exact Option.noConfusion h
      | some out =>
        obtain ⟨names, posters⟩ := out
        simp only [hl, Option.some.injEq] at h
        subst h
        obtain ⟨acc, hsub, h1, h2, h3⟩ := scanLoop_spec movies enricher 9 _ [] [] _ hl
        simp only [List.nil_append] at h1 h2
        have hlen : names.length = acc.length := by rw [h1]; simp
        have hplen : posters.length = acc.length := by rw [h2]; simp
        have hq : names.length ≤ 9 :=
          scanLoop_quota movies enricher 9 _ [] [] _ (by simp) hl
        have h29 : acc.length ≤ 29 := by
          have ha := hsub.length_le
          have hb : (scannedCandidates row 29).length ≤ 29 := by
            rw [scannedCandidates]
            exact List.length_take_le 29 _
          omega
        refine ⟨hq, ?_, ?_, ?_, ?_⟩
        · show posters.length ≤ 9
          omega
        · show names.length ≤ 29
          omega
        · show posters.length ≤ 29
          omega
        intro _
        refine ⟨index, row, acc, rfl, hs, hsub, ?_, ?_, h1, h2⟩
        · intro c hc
          exact mem_scanned_getElem (hsub.subset hc)
        · exact (scanned_sorted row 29).sublist hsub

unseal List.merge List.mergeSort in
theorem C4_witness :
    recommendApp "A" refCatalog refSimilarity enrAll
      = some ⟨["B", "D", "C"], ["poster-102", "poster-104", "poster-103"], false⟩ ∧
    ((["B", "D", "C"] : List String).length ≤ 9 ∧
     (["poster-102", "poster-104", "poster-103"] : List String).length ≤ 9 ∧
     (["B", "D", "C"] : List String).length ≤ 29 ∧
     (["poster-102", "poster-104", "poster-103"] : List String).length ≤ 29 ∧
     ((false : Bool) = false →
      ∃ index row acc,
        refCatalog.findIdx? (fun m => m.title == "A") = some index ∧
        refSimilarity[index]? = some row ∧
        List.Sublist acc (scannedCandidates row 29) ∧
        (∀ c ∈ acc, row[c.1]? = some c.2) ∧
        acc.Pairwise (fun a b : Nat × Rat => b.2 ≤ a.2) ∧
        (["B", "D", "C"] : List String) = acc.map (fun c => titleAt refCatalog c.1) ∧
        (["poster-102", "poster-104", "poster-103"] : List String)
          = acc.map (fun c => posterAt refCatalog enrAll c.1))) := by
  have hrec : recommendApp "A" refCatalog refSimilarity enrAll
      = some ⟨["B", "D", "C"], ["poster-102", "poster-104", "poster-103"], false⟩ := by
    decide
  exact ⟨hrec, C4_result_bounds_and_order "A" refCatalog refSimilarity enrAll _ hrec⟩

/-- C10: whenever `recommend` returns (including the not-found
short-circuit), the two lists have equal length and entries at the same
rank correspond: the i-th poster is the asset the enricher yields for a
catalog row carrying the i-th title. -/
theorem C10_parallel_results
    (movie : String) (movies : List Movie) (similarity : List (List Rat))
    (enricher : Nat → Option String) (r : RecReturn)
    (h : recommendApp movie movies similarity enricher = some r) :
    r.names.length = r.posters.length ∧
    ∀ (i : Nat) (h1 : i < r.names.length) (h2 : i < r.posters.length),
      ∃ m, m ∈ movies ∧ r.names.get ⟨i, h1⟩ = m.title ∧
        enricher m.movie_id = some (r.posters.get ⟨i, h2⟩) := by
  rw [recommendApp] at h
  cases hf : movies.findIdx? (fun m => m.title == movie) with
  | none =>
    simp only [recommend, hf, Option.some.injEq] at h
    subst h
    refine ⟨rfl, ?_⟩
    intro i h1 h2
    simp at h1
  | some index =>
    cases hs : similarity[index]? with
    | none =>
      simp only [recommend, hf, hs] at h
      exact Option.noConfusion h
    | some row =>
      simp only [recommend, hf, hs] at h
      cases hl : scanLoop movies enricher 9 (scannedCandidates row 29) [] [] with
      | none =>
        simp only [hl] at h
        exact Option.noConfusion h
      | some out =>
        obtain ⟨names, posters⟩ := out
        simp only [hl, Option.some.injEq] at h
        subst h
        obtain ⟨acc, hsub, h1, h2, h3⟩ := scanLoop_spec movies enricher 9 _ [] [] _ hl
        simp only [List.nil_append] at h1 h2
        refine ⟨by rw [h1, h2]; simp, ?_⟩
        intro i hi1 hi2
        simp only at hi1 hi2
        have hacc1 : i < acc.length := by
          rw [h1] at hi1
          simpa using hi1
        have hc : acc[i] ∈ acc := List.getElem_mem hacc1
        obtain ⟨m, hm, hurl⟩ := h3 _ hc
        refine ⟨m, List.getElem?_mem hm, ?_, ?_⟩
        · have : names.get ⟨i, hi1⟩ = titleAt movies acc[i].1 := by
            simp only [List.get_eq_getElem]
            rw [List.getElem_of_eq h1]
            simp
          rw [this]
          simp [titleAt, hm]
        · have : posters.get ⟨i, hi2⟩ = posterAt movies enricher acc[i].1 := by
            simp only [List.get_eq_getElem]
            rw [List.getElem_of_eq h2]
            simp
          rw [this]
          exact hurl

unseal List.merge List.mergeSort in
theorem C10_witness :
    recommendApp "A" refCatalog refSimilarity enrNoB
      = some ⟨["D", "C"], ["poster-104", "poster-103"], false⟩ ∧
    ((["D", "C"] : List String).length
        = (["poster-104", "poster-103"] : List String).length ∧
     ∀ (i : Nat) (h1 : i < (["D", "C"] : List String).length)
       (h2 : i < (["poster-104", "poster-103"] : List String).length),
      ∃ m, m ∈ refCatalog ∧ (["D", "C"] : List String).get ⟨i, h1⟩ = m.title ∧
        enrNoB m.movie_id = some ((["poster-104", "poster-103"] : List String).get ⟨i, h2⟩)) := by
  have hrec : recommendApp "A" refCatalog refSimilarity enrNoB
      = some ⟨["D", "C"], ["poster-104", "poster-103"], false⟩ := by
    decide
  exact ⟨hrec, C10_parallel_results "A" refCatalog refSimilarity enrNoB _ hrec⟩

/-- C2: for every resolved selection, the candidate sequence the loop
examines is obtained from the unique permutation of the enumerated row
that is sorted strictly descending by score with ties broken by original
row order, by positionally dropping its first entry and taking the next
29; and `recommend` is exactly the scanning loop run on that sequence. -/
theorem C2_ranking_construction
    (movie : String) (movies : List Movie) (similarity : List (List Rat))
    (enricher : Nat → Option String) (quota index : Nat) (row : List Rat)
    (hf : movies.findIdx? (fun m => m.title == movie) = some index)
    (hrow : similarity[index]? = some row) :
    ∃ ranked : List (Nat × Rat),
      ranked.Perm row.enum ∧
      ranked.Pairwise descLex ∧
      (∀ l : List (Nat × Rat), l.Perm row.enum → l.Pairwise descLex → l = ranked) ∧
      scannedCandidates row 29 = (ranked.drop 1).take 29 ∧
      recommend movie movies similarity enricher quota 29
        = (match scanLoop movies enricher quota ((ranked.drop 1).take 29) [] [] with
           | none => none
           | some (names, posters) => some ⟨names, posters, false⟩) := by
  refine ⟨rankedCandidates row, rankedCandidates_perm row,
    rankedCandidates_pairwise row, ?_, rfl, ?_⟩
  · intro l hp hs
    exact ranked_unique hp hs (rankedCandidates_perm row) (rankedCandidates_pairwise row)
  · simp only [recommend, hf, hrow]
    rfl

theorem C2_witness :
    refCatalog.findIdx? (fun m => m.title == "A") = some 0 ∧
    refSimilarity[0]? = some [1, mkRat 9 10, mkRat 1 5, mkRat 1 2] ∧
    ∃ ranked : List (Nat × Rat),
      ranked.Perm ([1, mkRat 9 10, mkRat 1 5, mkRat 1 2] : List Rat).enum ∧
      ranked.Pairwise descLex ∧
      (∀ l : List (Nat × Rat),
        l.Perm ([1, mkRat 9 10, mkRat 1 5, mkRat 1 2] : List Rat).enum →
        l.Pairwise descLex → l = ranked) ∧
      scannedCandidates [1, mkRat 9 10, mkRat 1 5, mkRat 1 2] 29
        = (ranked.drop 1).take 29 ∧
      recommend "A" refCatalog refSimilarity enrAll 2 29
        = (match scanLoop refCatalog enrAll 2 ((ranked.drop 1).take 29) [] [] with
           | none => none
           | some (names, posters) => some ⟨names, posters, false⟩) :=
  ⟨by decide, by decide,
    C2_ranking_construction "A" refCatalog refSimilarity enrAll 2 0 _
      (by decide) (by decide)⟩

unseal List.merge List.mergeSort in
/-- C3 counterexample: a valid catalog (matching lengths, non-strictly
maximal self-similarity) and a uniquely held title on which the returned
names contain the selected title itself.  With the tie, the stable sort
places row 0 ahead of the selected row 1, the positional exclusion drops
row 0, and the selected row is recommended back. -/
theorem C3_counterexample :
    tieCatalog.length = tieSimilarity.length ∧
    (∀ row ∈ tieSimilarity, row.length = tieCatalog.length) ∧
    selfSimMaximalB tieSimilarity = true ∧
    tieCatalog.countP (fun m => m.title == "B") = 1 ∧
    ∃ r, recommendApp "B" tieCatalog tieSimilarity enrAll = some r ∧
      "B" ∈ r.names := by
  exact ⟨rfl, by decide, by decide, by decide,
    ⟨⟨["B"], ["poster-202"], false⟩, by decide, by decide⟩⟩

/-- C3 amended: with matching dimensions, *strictly* maximal
self-similarity in every row, and a title held by exactly one row, every
returned name is a catalog title different from the selected title. -/
theorem C3_amended_titles_from_catalog
    (movie : String) (movies : List Movie) (similarity : List (List Rat))
    (enricher : Nat → Option String) (r : RecReturn)
    (hlen : movies.length = similarity.length)
    (hsq : ∀ row ∈ similarity, row.length = movies.length)
    (hmax : selfSimStrictMaxB similarity = true)
    (huniq : movies.countP (fun m => m.title == movie) = 1)
    (h : recommendApp movie movies similarity enricher = some r) :
    ∀ t ∈ r.names, (∃ m ∈ movies, t = m.title) ∧ t ≠ movie := by
  rw [recommendApp] at h
  cases hf : movies.findIdx? (fun m => m.title == movie) with
  | none =>
    simp only [recommend, hf, Option.some.injEq] at h
    subst h
    intro t ht
    simp at ht
  | some index =>
    obtain ⟨hidxlt, hpidx, hmin⟩ := List.findIdx?_eq_some_iff_getElem.mp hf
    have hsim : index < similarity.length := hlen ▸ hidxlt
    cases hs : similarity[index]? with
    | none =>
      rw [List.getElem?_eq_none_iff] at hs
      omega
    | some row =>
      have hrowmem : row ∈ similarity := List.getElem?_mem hs
      have hrl : row.length = movies.length := hsq row hrowmem
      have hrowlt : index < row.length := by omega
      have hsi : row[index]? = some row[index] := List.getElem?_eq_getElem hrowlt
      have hstrict := selfSimStrictMaxB_spec hmax hs hsi
      obtain ⟨rest, hranked, hrest⟩ :=
        ranked_head_self row index row[index] hsi hstrict
      simp only [recommend, hf, hs] at h
      cases hl : scanLoop movies enricher 9 (scannedCandidates row 29) [] [] with
      | none =>
        simp only [hl] at h
        exact Option.noConfusion h
      | some out =>
        obtain ⟨names, posters⟩ := out
        simp only [hl, Option.some.injEq] at h
        subst h
        obtain ⟨acc, hsub, h1, h2, h3⟩ := scanLoop_spec movies enricher 9 _ [] [] _ hl
        simp only [List.nil_append] at h1 h2
        intro t ht
        have ht' : t ∈ names := ht
        rw [h1] at ht'
        obtain ⟨c, hcacc, hct⟩ := List.mem_map.mp ht'
        obtain ⟨m, hm, -⟩ := h3 c hcacc
        have htm : t = m.title := by rw [← hct]; simp [titleAt, hm]
        have hmmem : m ∈ movies := List.getElem?_mem hm
        refine ⟨⟨m, hmmem, htm⟩, ?_⟩
        have hcscan : c ∈ scannedCandidates row 29 := hsub.subset hcacc
        have hscan_eq : scannedCandidates row 29 = rest.take 29 := by
          rw [scannedCandidates, hranked]
          simp
        rw [hscan_eq] at hcscan
        have hcrest : c ∈ rest := List.mem_of_mem_take hcscan
        have hcne : c.1 ≠ index := hrest c hcrest
        intro hteq
        have hpm : (fun m => m.title == movie) m = true := by
          simp only [beq_iff_eq]
          rw [← htm, hteq]
        have hmi : movies[index]? = some movies[index] :=
          List.getElem?_eq_getElem hidxlt
        exact hcne (countP_one_unique huniq c.1 index m movies[index] hm hmi hpm hpidx)

unseal List.merge List.mergeSort in
theorem C3_amended_witness :
    refCatalog.length = refSimilarity.length ∧
    (∀ row ∈ refSimilarity, row.length = refCatalog.length) ∧
    selfSimStrictMaxB refSimilarity = true ∧
    refCatalog.countP (fun m => m.title == "A") = 1 ∧
    recommendApp "A" refCatalog refSimilarity enrAll
      = some ⟨["B", "D", "C"], ["poster-102", "poster-104", "poster-103"], false⟩ ∧
    ∀ t ∈ (["B", "D", "C"] : List String),
      (∃ m ∈ refCatalog, t = m.title) ∧ t ≠ "A" := by
  have hrec : recommendApp "A" refCatalog refSimilarity enrAll
      = some ⟨["B", "D", "C"], ["poster-102", "poster-104", "poster-103"], false⟩ := by
    decide
  exact ⟨rfl, by decide, by decide, by decide, hrec,
    C3_amended_titles_from_catalog "A" refCatalog refSimilarity enrAll _
      rfl (by decide) (by decide) (by decide) hrec⟩

